import Mathlib

/-!
# Assignment tracker: state store, undo buffer and persistence

A shallow embedding of `app.js`.  The global variables `appState`, `undoStack`,
`undoTimeout` and the item kept in local storage under `STORAGE_KEY` become the
fields of one explicit `Store`; every handler of the script becomes a function
on that store.  What the script obtains from the platform is passed in as an
argument: `Date.now()` (arguments `now`, `createdAt`), `crypto.randomUUID()`
(argument `uuid`) and the user's answer to a confirmation dialog.

Modelling conventions.
* JavaScript numbers are restricted to integers and computed exactly (`Int`);
  negative zero is identified with zero.
* A JSON text is identified with the document it denotes (`Json`), objects being
  read with the last occurrence of a key winning, as `JSON.parse` does.  Fields
  outside the snapshot schema are not tracked.
* The in-memory state is typed by the snapshot schema.  A document whose schema
  fields carry values of another type has no typed counterpart; the decoders
  return `none` for it.
* The DOM is not modelled, except for the one effect it has on control flow:
  building a card for a subject with an invalid status index raises a
  `TypeError`, which aborts the rest of the running handler.
-/

namespace AssignmentTracker

/-! ## Values -/

/-- Parsed JSON documents. -/
inductive Json where
  | null
  | bool (b : Bool)
  | num (n : Int)
  | str (s : String)
  | arr (items : List Json)
  | obj (fields : List (String × Json))

/-- Text as found in local storage or in an imported file: either it is not
JSON (`JSON.parse` throws) or it denotes a document. -/
inductive Raw where
  | malformed
  | wellformed (doc : Json)

/-- One slot of an `assignments` array.  Besides integers the script itself can
produce `NaN` and array holes (by toggling past the end of the array), and a
reload turns both into `null`. -/
inductive Cell where
  | num (n : Int)
  | nan
  | null
  | hole
  deriving DecidableEq, Repr

/-- An entry of the `STATUSES` table. -/
structure Status where
  label : String
  icon : String
  colorVar : String
  deriving DecidableEq, Repr

/-- The status cycle, in order. -/
def STATUSES : List Status :=
  [ ⟨"Not Provided", "circle", "0"⟩,
    ⟨"Pending", "clock", "1"⟩,
    ⟨"Completed", "check", "2"⟩,
    ⟨"Checked", "check-circle", "3"⟩,
    ⟨"Uploaded", "upload-cloud", "4"⟩ ]

/-- Length of the undo window in milliseconds, the delay given to `setTimeout`. -/
def UNDO_WINDOW : Int := 5000

/-- A tracked subject. -/
structure Subject where
  id : String
  name : String
  assignments : List Cell
  createdAt : Int
  deriving DecidableEq, Repr

/-- The object held in `appState`.  A field is `none` when the property is
absent, which happens for `lastUpdated` before the first save and for `version`
and `theme` after importing a backup that lacks them. -/
structure AppState where
  version : Option Int
  theme : Option String
  subjects : List Subject
  lastUpdated : Option Int
  deriving DecidableEq, Repr

/-- The object held in `undoStack`. -/
structure UndoEntry where
  item : Subject
  index : Nat
  deriving DecidableEq, Repr

/-- The mutable globals of the script together with the storage item.
`undoTimeout` is the deadline of the pending timer, `none` when no timer is
pending. -/
structure Store where
  appState : AppState
  undoStack : Option UndoEntry
  undoTimeout : Option Int
  storage : Option Raw

/-- Result of running a handler: the store it leaves behind and whether it was
left by an uncaught exception. -/
structure Outcome where
  store : Store
  threw : Bool

/-- The initial value of `appState`. -/
def defaultState : AppState :=
  { version := some 1, theme := some "sea", subjects := [], lastUpdated := none }

/-- The globals as initialised by the script, over a given storage content. -/
def initialStore (storage : Option Raw) : Store :=
  { appState := defaultState, undoStack := none, undoTimeout := none, storage := storage }

/-! ## Strings and arrays -/

/-- The code points `String.prototype.trim` strips: ECMAScript white space and
line terminators. -/
def isJsWhiteSpace (c : Char) : Bool :=
  let n := c.toNat
  n == 0x09 || n == 0x0A || n == 0x0B || n == 0x0C || n == 0x0D || n == 0x20 ||
  n == 0xA0 || n == 0x1680 || (0x2000 ≤ n && n ≤ 0x200A) || n == 0x2028 ||
  n == 0x2029 || n == 0x202F || n == 0x205F || n == 0x3000 || n == 0xFEFF

/-- Strip white space from both ends of a list of characters. -/
def trimChars (cs : List Char) : List Char :=
  ((cs.dropWhile isJsWhiteSpace).reverse.dropWhile isJsWhiteSpace).reverse

/-- The method `String.prototype.trim`. -/
def trim (s : String) : String := String.mk (trimChars s.data)

/-- The method `Array.prototype.findIndex`; `none` stands for `-1`. -/
def findIndex {α : Type} (p : α → Bool) : List α → Option Nat
  | [] => none
  | x :: rest => if p x then some 0 else (findIndex p rest).map (· + 1)

/-- The method `Array.prototype.find`. -/
def find {α : Type} (p : α → Bool) : List α → Option α
  | [] => none
  | x :: rest => if p x then some x else find p rest

/-- In-place mutation of the object returned by `find`: the first element
satisfying `p` is replaced by its image under `f`. -/
def updateFound {α : Type} (p : α → Bool) (f : α → α) : List α → List α
  | [] => []
  | x :: rest => if p x then f x :: rest else x :: updateFound p f rest

/-- The method `Array.prototype.splice` for a non-negative start: `start` and
`deleteCount` are clamped to the array. -/
def splice {α : Type} (start deleteCount : Nat) (items : List α) (l : List α) : List α :=
  l.take start ++ items ++ l.drop (start + deleteCount)

/-- Reading `assignments[k]`: a hole or an index past the end reads as
`undefined`, which behaves like a hole in all that follows. -/
def readCell (cells : List Cell) (k : Nat) : Cell :=
  cells.getD k Cell.hole

/-- Writing `assignments[k] = v`: an index past the end extends the array,
leaving holes in between. -/
def writeCell (cells : List Cell) (k : Nat) (v : Cell) : List Cell :=
  if k < cells.length then cells.set k v
  else cells ++ List.replicate (k - cells.length) Cell.hole ++ [v]

/-- The expression `(current + 1) % STATUSES.length`.  The remainder takes the
sign of the dividend; `null` converts to zero; `NaN` and `undefined` give
`NaN`. -/
def nextStatus (current : Cell) : Cell :=
  match current with
  | Cell.num n => Cell.num ((n + 1).tmod STATUSES.length)
  | Cell.null => Cell.num ((0 + 1 : Int).tmod STATUSES.length)
  | Cell.nan => Cell.nan
  | Cell.hole => Cell.nan

/-- The array literal `[0, 0, 0, 0, 0]`. -/
def zeroAssignments : List Cell :=
  [Cell.num 0, Cell.num 0, Cell.num 0, Cell.num 0, Cell.num 0]

/-! ## Rendering, as far as it can throw -/

/-- Whether `STATUSES[statusIdx].label` evaluates: the index must select an
entry of the table. -/
def statusDefined (statusIdx : Cell) : Bool :=
  match statusIdx with
  | Cell.num n => decide (0 ≤ n) && decide (n < STATUSES.length)
  | _ => false

/-- Whether `createSubjectCard` returns: `forEach` visits every slot that is
not a hole and looks its status up. -/
def createSubjectCard (subject : Subject) : Bool :=
  subject.assignments.all fun statusIdx => statusIdx == Cell.hole || statusDefined statusIdx

/-- Whether `render` returns, that is, every card can be built. -/
def render (subjects : List Subject) : Bool :=
  subjects.all createSubjectCard

/-- Whether `updateCellUI` returns.  The grid shows the cards built by the last
`render` of `subjects`, which stopped at the first card that could not be
built; the cell looked up is the one of the first card with this id. -/
def updateCellUI (subjects : List Subject) (subId : String) (idx : Nat) (statusIdx : Cell) : Bool :=
  match find (fun s => s.id == subId) (subjects.takeWhile createSubjectCard) with
  | none => true
  | some card =>
    if idx < card.assignments.length && readCell card.assignments idx != Cell.hole
    then statusDefined statusIdx else true

/-! ## Serialisation -/

/-- What `JSON.stringify` emits for a slot: `NaN` and holes become `null`. -/
def Cell.toJson : Cell → Json
  | Cell.num n => Json.num n
  | Cell.nan => Json.null
  | Cell.null => Json.null
  | Cell.hole => Json.null

/-- What `JSON.stringify` emits for a subject, keys in creation order. -/
def Subject.toJson (s : Subject) : Json :=
  Json.obj
    [ ("id", Json.str s.id),
      ("name", Json.str s.name),
      ("assignments", Json.arr (s.assignments.map Cell.toJson)),
      ("createdAt", Json.num s.createdAt) ]

/-- A property that is present, as a one-element list of object fields. -/
def presentField (key : String) (encode : α → Json) : Option α → List (String × Json)
  | none => []
  | some v => [(key, encode v)]

/-- What `JSON.stringify(appState)` emits; absent properties are skipped. -/
def AppState.toJson (a : AppState) : Json :=
  Json.obj
    (presentField "version" Json.num a.version ++
     presentField "theme" Json.str a.theme ++
     [("subjects", Json.arr (a.subjects.map Subject.toJson))] ++
     presentField "lastUpdated" Json.num a.lastUpdated)

/-- Property access `value[key]` on a parsed document: the last occurrence of
the key in an object, `none` (that is, `undefined`) otherwise. -/
def Json.field (key : String) : Json → Option Json
  | Json.obj fields => (find (fun kv => kv.1 == key) fields.reverse).map (·.2)
  | _ => none

/-- Typed view of a number. -/
def Json.asNum : Json → Option Int
  | Json.num n => some n
  | _ => none

/-- Typed view of a string. -/
def Json.asStr : Json → Option String
  | Json.str s => some s
  | _ => none

/-- Typed view of an array. -/
def Json.asArr : Json → Option (List Json)
  | Json.arr items => some items
  | _ => none

/-- Decode every element of an array, failing if one element fails. -/
def decodeAll {α : Type} (decode : Json → Option α) : List Json → Option (List α)
  | [] => some []
  | j :: rest =>
    match decode j, decodeAll decode rest with
    | some a, some as => some (a :: as)
    | _, _ => none

/-- Typed view of a parsed assignment slot. -/
def Cell.ofJson : Json → Option Cell
  | Json.num n => some (Cell.num n)
  | Json.null => some Cell.null
  | _ => none

/-- Typed view of a parsed subject. -/
def Subject.ofJson (j : Json) : Option Subject :=
  match j with
  | Json.obj _ =>
    match (j.field "id").bind Json.asStr, (j.field "name").bind Json.asStr,
          ((j.field "assignments").bind Json.asArr).bind (decodeAll Cell.ofJson),
          (j.field "createdAt").bind Json.asNum with
    | some id, some name, some assignments, some createdAt =>
      some { id := id, name := name, assignments := assignments, createdAt := createdAt }
    | _, _, _, _ => none
  | _ => none

/-- Typed view of an optional property: `some none` when absent, `none` when
present with a value of another type. -/
def optField {α : Type} (decode : Json → Option α) (key : String) (j : Json) :
    Option (Option α) :=
  match j.field key with
  | none => some none
  | some v => (decode v).map some

/-- Typed view of the `subjects` property. -/
def decodeSubjects (v : Json) : Option (List Subject) :=
  v.asArr.bind (decodeAll Subject.ofJson)

/-- The object spread of `loadData`, written field by field: properties present
in `parsed` override those of the current state, all others are kept.
Primitives, strings and arrays contribute no schema property. -/
def mergeParsed (current : AppState) (parsed : Json) : Option AppState :=
  match parsed with
  | Json.obj _ =>
    match optField Json.asNum "version" parsed, optField Json.asStr "theme" parsed,
          optField decodeSubjects "subjects" parsed,
          optField Json.asNum "lastUpdated" parsed with
    | some version, some theme, some subjects, some lastUpdated =>
      some { version := version.orElse fun _ => current.version,
             theme := theme.orElse fun _ => current.theme,
             subjects := subjects.getD current.subjects,
             lastUpdated := lastUpdated.orElse fun _ => current.lastUpdated }
    | _, _, _, _ => none
  | _ => some current

/-- Typed view of a whole parsed snapshot, as installed by `appState = parsed`. -/
def AppState.ofJson (parsed : Json) : Option AppState :=
  match parsed with
  | Json.obj _ =>
    match optField Json.asNum "version" parsed, optField Json.asStr "theme" parsed,
          (parsed.field "subjects").bind decodeSubjects,
          optField Json.asNum "lastUpdated" parsed with
    | some version, some theme, some subjects, some lastUpdated =>
      some { version := version, theme := theme, subjects := subjects,
             lastUpdated := lastUpdated }
    | _, _, _, _ => none
  | _ => none

/-! ## Persistence -/

/-- The function `loadData`.  Nothing stored, or stored text that does not
parse, leaves the state as it is; a parsed document is merged over it.  The
result is `none` when the merged object has no typed counterpart. -/
def loadData (st : Store) : Option Store :=
  match st.storage with
  | none => some st
  | some Raw.malformed => some st
  | some (Raw.wellformed parsed) =>
    (mergeParsed st.appState parsed).map fun merged => { st with appState := merged }

/-- The function `saveData`: stamp `lastUpdated`, then store the serialised
state. -/
def saveData (now : Int) (st : Store) : Store :=
  let stamped : AppState := { st.appState with lastUpdated := some now }
  { st with appState := stamped, storage := some (Raw.wellformed stamped.toJson) }

/-- Assignment to `appState.subjects`, or mutation of that array in place. -/
def Store.setSubjects (st : Store) (subjects : List Subject) : Store :=
  { st with appState := { st.appState with subjects := subjects } }

/-! ## Toast and undo timer -/

/-- The function `showToast`: cancel the pending timer and start a new one. -/
def showToast (now : Int) (st : Store) : Store :=
  { st with undoTimeout := some (now + UNDO_WINDOW) }

/-- The timer callback: hide the toast and clear the undo buffer. -/
def undoTimeoutFires (st : Store) : Store :=
  { st with undoStack := none, undoTimeout := none }

/-! ## Store operations -/

/-- The function `addSubject`. -/
def addSubject (uuid : String) (createdAt now : Int) (name : String) (st : Store) : Outcome :=
  if trim name == "" then ⟨st, false⟩
  else
    let newSubject : Subject :=
      { id := uuid, name := trim name, assignments := zeroAssignments, createdAt := createdAt }
    let st1 := saveData now (st.setSubjects (st.appState.subjects ++ [newSubject]))
    ⟨st1, !render st1.appState.subjects⟩

/-- The function `deleteSubject`.  When `render` throws, `showToast` is not
reached. -/
def deleteSubject (now : Int) (id : String) (st : Store) : Outcome :=
  match findIndex (fun s => s.id == id) st.appState.subjects with
  | none => ⟨st, false⟩
  | some index =>
    match st.appState.subjects[index]? with
    | none => ⟨st, false⟩
    | some item =>
      let st1 := saveData now
        ({ st with undoStack := some ⟨item, index⟩ }.setSubjects
          (splice index 1 [] st.appState.subjects))
      if render st1.appState.subjects then ⟨showToast now st1, false⟩ else ⟨st1, true⟩

/-- The function `undoDelete`. -/
def undoDelete (now : Int) (st : Store) : Outcome :=
  match st.undoStack with
  | none => ⟨st, false⟩
  | some entry =>
    let st1 := saveData now
      ({ st with undoStack := none }.setSubjects
        (splice entry.index 0 [entry.item] st.appState.subjects))
    ⟨st1, !render st1.appState.subjects⟩

/-- The function `resetSubject`. -/
def resetSubject (now : Int) (id : String) (st : Store) : Outcome :=
  match find (fun s => s.id == id) st.appState.subjects with
  | none => ⟨st, false⟩
  | some _ =>
    let st1 := saveData now
      (st.setSubjects
        (updateFound (fun s => s.id == id) (fun sub => { sub with assignments := zeroAssignments })
          st.appState.subjects))
    ⟨st1, !render st1.appState.subjects⟩

/-- The function `toggleStatus`. -/
def toggleStatus (now : Int) (subjectId : String) (assignIndex : Nat) (st : Store) : Outcome :=
  match find (fun s => s.id == subjectId) st.appState.subjects with
  | none => ⟨st, false⟩
  | some sub =>
    let current := readCell sub.assignments assignIndex
    let next := nextStatus current
    let st1 := saveData now
      (st.setSubjects
        (updateFound (fun s => s.id == subjectId)
          (fun sub => { sub with assignments := writeCell sub.assignments assignIndex next })
          st.appState.subjects))
    ⟨st1, !updateCellUI st.appState.subjects subjectId assignIndex next⟩

/-- The function `updateName`. -/
def updateName (now : Int) (id newName : String) (st : Store) : Outcome :=
  match find (fun s => s.id == id) st.appState.subjects with
  | none => ⟨st, false⟩
  | some sub =>
    if trim newName != sub.name then
      ⟨saveData now
        (st.setSubjects
          (updateFound (fun s => s.id == id) (fun sub => { sub with name := trim newName })
            st.appState.subjects)), false⟩
    else ⟨st, false⟩

/-- The confirmed "Factory Reset" callback, the store operation `resetAll`. -/
def resetAll (now : Int) (st : Store) : Outcome :=
  let st1 := saveData now (st.setSubjects [])
  if render st1.appState.subjects then ⟨showToast now st1, false⟩ else ⟨st1, true⟩

/-- The confirmed callback of `importData`, the store operation `replaceAll`:
install the parsed snapshot, save, re-apply its theme, render and announce. -/
def replaceAll (now : Int) (parsed : AppState) (st : Store) : Outcome :=
  let st1 := saveData now { st with appState := parsed }
  let st2 := { st1 with appState := { st1.appState with theme := st1.appState.theme } }
  if render st2.appState.subjects then ⟨showToast now st2, false⟩ else ⟨st2, true⟩

/-- The theme selector handler: `applyTheme` followed by `saveData`. -/
def changeTheme (now : Int) (themeName : String) (st : Store) : Outcome :=
  ⟨saveData now { st with appState := { st.appState with theme := some themeName } }, false⟩

/-! ## File selection in the backup dialog -/

/-- What the `onload` handler of `importData` decides. -/
inductive ImportDecision where
  | invalidFormat
  | readError
  | askConfirm (parsed : Json)

/-- The `onload` handler of `importData` up to the dialog it opens.  Text that
does not parse, and the document `null` (whose property access throws), end in
the `catch` branch; a document without a `subjects` array is refused. -/
def importData (file : Raw) : ImportDecision :=
  match file with
  | Raw.malformed => ImportDecision.readError
  | Raw.wellformed Json.null => ImportDecision.readError
  | Raw.wellformed parsed =>
    match parsed.field "subjects" with
    | some (Json.arr _) => ImportDecision.askConfirm parsed
    | _ => ImportDecision.invalidFormat

/-- A whole run of the backup dialog: the file is read and checked, and if it
is accepted and the user confirms, the snapshot replaces the state.  The result
is `none` when the accepted snapshot has no typed counterpart. -/
def importSession (now : Int) (file : Raw) (confirmed : Bool) (st : Store) : Option Outcome :=
  match importData file with
  | ImportDecision.askConfirm parsed =>
    if confirmed then (AppState.ofJson parsed).map fun snapshot => replaceAll now snapshot st
    else some ⟨st, false⟩
  | _ => some ⟨st, false⟩

/-! ## Runs -/

/-- The handlers that touch the store, as events of a run. -/
inductive Event where
  | addSubject (uuid : String) (createdAt : Int) (name : String)
  | deleteSubject (id : String)
  | undoDelete
  | resetSubject (id : String)
  | toggleStatus (subjectId : String) (assignIndex : Nat)
  | updateName (id newName : String)
  | resetAll
  | replaceAll (parsed : AppState)
  | changeTheme (themeName : String)
  | showToast
  deriving DecidableEq, Repr

/-- Run the handler of an event at clock reading `now`.  The event `showToast`
is a toast without undo button ("Nothing to reset here", "The shore is already
clear"). -/
def handle (now : Int) (e : Event) (st : Store) : Outcome :=
  match e with
  | Event.addSubject uuid createdAt name => addSubject uuid createdAt now name st
  | Event.deleteSubject id => deleteSubject now id st
  | Event.undoDelete => undoDelete now st
  | Event.resetSubject id => resetSubject now id st
  | Event.toggleStatus subjectId assignIndex => toggleStatus now subjectId assignIndex st
  | Event.updateName id newName => updateName now id newName st
  | Event.resetAll => resetAll now st
  | Event.replaceAll parsed => replaceAll now parsed st
  | Event.changeTheme themeName => changeTheme now themeName st
  | Event.showToast => ⟨showToast now st, false⟩

/-- The event loop runs a timer that is overdue before any later event: a
pending timer whose deadline lies strictly before `now` has fired. -/
def expire (now : Int) (st : Store) : Store :=
  match st.undoTimeout with
  | some deadline => if deadline < now then undoTimeoutFires st else st
  | none => st

/-- One step of a run: overdue timer first, then the handler. -/
def dispatch (now : Int) (e : Event) (st : Store) : Store :=
  (handle now e (expire now st)).store

/-- A run: timestamped events dispatched in order. -/
def run (st : Store) (events : List (Int × Event)) : Store :=
  events.foldl (fun s te => dispatch te.1 te.2 s) st

/-! ## Observations and sample data -/

/-- The entry `assignments[k]` of the subject that `find` returns for `id`. -/
def statusAt (st : Store) (id : String) (k : Nat) : Option Cell :=
  (find (fun s => s.id == id) st.appState.subjects).map fun sub => readCell sub.assignments k

/-- Successive calls `toggleStatus(id, k)`, one per clock reading. -/
def toggleTimes (times : List Int) (id : String) (k : Nat) (st : Store) : Store :=
  times.foldl (fun s now => (toggleStatus now id k s).store) st

/-- A subject with mixed statuses. -/
def sampleMath : Subject :=
  { id := "a", name := "Math",
    assignments := [Cell.num 0, Cell.num 1, Cell.num 4, Cell.num 3, Cell.num 2],
    createdAt := 10 }

/-- A second subject. -/
def samplePhysics : Subject :=
  { id := "b", name := "Physics", assignments := zeroAssignments, createdAt := 20 }

/-- A store holding the two sample subjects, nothing saved yet. -/
def sampleStore : Store :=
  { appState := { defaultState with subjects := [sampleMath, samplePhysics] },
    undoStack := none, undoTimeout := none, storage := none }

/-- Whether a slot holds a number. -/
def Cell.isNum : Cell → Bool
  | Cell.num _ => true
  | _ => false

/-- A state that matches the snapshot schema: `version` and `theme` present and
every subject with exactly five numeric assignment slots. -/
def StructurallyValid (a : AppState) : Prop :=
  a.version.isSome = true ∧ a.theme.isSome = true ∧
  ∀ s ∈ a.subjects, s.assignments.length = 5 ∧ ∀ c ∈ s.assignments, c.isNum = true

instance (a : AppState) : Decidable (StructurallyValid a) := by
  unfold StructurallyValid
  infer_instance

/-- A store holding `a` in memory, with nothing pending and nothing stored. -/
def storeOf (a : AppState) : Store :=
  { appState := a, undoStack := none, undoTimeout := none, storage := none }

/-- A schema-conformant state that has been saved at time 0 before. -/
def sampleState : AppState :=
  { version := some 1, theme := some "sea", subjects := [sampleMath, samplePhysics],
    lastUpdated := some 0 }

/-- Events that are neither a deletion nor raise a toast. -/
def Event.isQuiet : Event → Bool
  | Event.deleteSubject _ => false
  | Event.resetAll => false
  | Event.replaceAll _ => false
  | Event.showToast => false
  | _ => true

/-- The undo buffer is empty or a timer is pending that fires by `bound`. -/
def ExpiresBy (bound : Int) (st : Store) : Prop :=
  st.undoStack = none ∨ ∃ deadline, st.undoTimeout = some deadline ∧ deadline ≤ bound

/-- The ids held by the store: those of the listed subjects, followed by the
id of the subject kept in the undo buffer, if any. -/
def heldIds (st : Store) : List String :=
  st.appState.subjects.map (fun s => s.id) ++ st.undoStack.toList.map (fun u => u.item.id)

/-- Side conditions on the inputs of an event as C8 words them: a generated id
is fresh, that is, differs from every id held by the store, and a snapshot has
pairwise distinct ids. -/
def statedCondition (st : Store) : Event → Bool
  | Event.addSubject uuid _ _ => decide (uuid ∉ heldIds st)
  | Event.replaceAll parsed => decide (parsed.subjects.map fun s => s.id).Nodup
  | _ => true

/-- The same side conditions with the undo buffer taken into account for
snapshots: their ids are pairwise distinct and differ from the id kept in the
undo buffer. -/
def bufferCondition (st : Store) : Event → Bool
  | Event.addSubject uuid _ _ => decide (uuid ∉ heldIds st)
  | Event.replaceAll parsed =>
    decide ((parsed.subjects.map fun s => s.id) ++
      st.undoStack.toList.map fun u => u.item.id).Nodup
  | _ => true

/-- Whether every event of a run meets the side condition in the store its
handler starts from. -/
def runSatisfies (cond : Store → Event → Bool) : Store → List (Int × Event) → Bool
  | _, [] => true
  | st, te :: rest =>
    cond (expire te.1 st) te.2 && runSatisfies cond (dispatch te.1 te.2 st) rest

/-- A status index: a number from 0 to 4. -/
def Cell.isStatus : Cell → Bool
  | Cell.num n => decide (0 ≤ n) && decide (n ≤ 4)
  | _ => false

/-- Exactly five assignment slots, each holding a status index. -/
def Subject.wellShaped (s : Subject) : Bool :=
  s.assignments.length == 5 && s.assignments.all Cell.isStatus

/-- Every listed subject and the subject in the undo buffer, if any, has the
assignments shape. -/
def ShapeInv (st : Store) : Prop :=
  (∀ s ∈ st.appState.subjects, s.wellShaped = true) ∧
  ∀ u, st.undoStack = some u → u.item.wellShaped = true

/-- Side conditions of C9 on the inputs of an event: a toggled index lies in
`[0,4]` and a snapshot has the assignments shape throughout. -/
def shapeCondition : Event → Bool
  | Event.toggleStatus _ assignIndex => decide (assignIndex ≤ 4)
  | Event.replaceAll parsed => parsed.subjects.all Subject.wellShaped
  | _ => true

/-- The stored snapshot is the serialisation of the state in memory. -/
def Persisted (st : Store) : Prop :=
  st.storage = some (Raw.wellformed st.appState.toJson)

/-- Whether an operation gets past its guard in a given store: a name that is
not blank, an id that some subject carries, a filled undo buffer, a trimmed new
name that differs from the current one.  A bare toast is no store operation. -/
def guardPasses (st : Store) : Event → Bool
  | Event.addSubject _ _ name => trim name != ""
  | Event.deleteSubject id => st.appState.subjects.any fun s => s.id == id
  | Event.undoDelete => st.undoStack.isSome
  | Event.resetSubject id => st.appState.subjects.any fun s => s.id == id
  | Event.toggleStatus subjectId _ => st.appState.subjects.any fun s => s.id == subjectId
  | Event.updateName id newName =>
    match find (fun s => s.id == id) st.appState.subjects with
    | some sub => trim newName != sub.name
    | none => false
  | Event.resetAll => true
  | Event.replaceAll _ => true
  | Event.changeTheme _ => true
  | Event.showToast => false

/-! ## Facts about the array helpers -/

theorem find_eq_none_iff {α : Type} (p : α → Bool) (l : List α) :
    find p l = none ↔ ∀ x ∈ l, p x = false := by
  induction l with
  | nil => simp [find]
  | cons a l ih =>
    by_cases h : p a = true
    · simp [find, h]
    · simp [find, h, ih]

theorem findIndex_eq_none_iff {α : Type} (p : α → Bool) (l : List α) :
    findIndex p l = none ↔ ∀ x ∈ l, p x = false := by
  induction l with
  | nil => simp [findIndex]
  | cons a l ih =>
    by_cases h : p a = true
    · simp [findIndex, h]
    · simp [findIndex, h, ih]

theorem findIndex_some_get {α : Type} (p : α → Bool) (l : List α) (i : Nat)
    (h : findIndex p l = some i) : ∃ x, l[i]? = some x ∧ p x = true := by
  induction l generalizing i with
  | nil => simp [findIndex] at h
  | cons a l ih =>
    by_cases hp : p a = true
    · simp [findIndex, hp] at h
      subst h
      exact ⟨a, by simp, hp⟩
    · simp [findIndex, hp] at h
      obtain ⟨j, hj, rfl⟩ := h
      obtain ⟨x, hx, hpx⟩ := ih j hj
      exact ⟨x, by simpa using hx, hpx⟩

theorem splice_remove_length {α : Type} (l : List α) (i : Nat) (x : α)
    (h : l[i]? = some x) : (splice i 1 [] l).length + 1 = l.length := by
  have hi : i < l.length := by
    rcases Nat.lt_or_ge i l.length with hlt | hge
    · exact hlt
    · rw [List.getElem?_eq_none hge] at h; cases h
  simp [splice]
  omega

theorem splice_insert_remove {α : Type} (l : List α) (i : Nat) (x : α)
    (h : l[i]? = some x) : splice i 0 [x] (splice i 1 [] l) = l := by
  induction l generalizing i with
  | nil => simp at h
  | cons a l ih =>
    cases i with
    | zero =>
      simp at h
      subst h
      simp [splice]
    | succ j =>
      have hj : l[j]? = some x := by simpa using h
      have := ih j hj
      simp only [splice, List.append_nil, Nat.add_zero, List.take_succ_cons, List.drop_succ_cons,
        List.cons_append, List.singleton_append] at this ⊢
      rw [this]

/-! ## Claims -/

/-- C1: for every store and every id of a subject present in the list, the
call `deleteSubject(id)` removes one subject and the call `undoDelete()` right
after it gives back the list of subjects exactly as it was before the delete:
same length, every subject (the deleted one included) at its old index with
all its fields. -/
theorem delete_then_undo_restores (st : Store) (id : String) (t1 t2 : Int)
    (hid : ∃ s ∈ st.appState.subjects, s.id = id) :
    (deleteSubject t1 id st).store.appState.subjects.length + 1
        = st.appState.subjects.length ∧
    (undoDelete t2 (deleteSubject t1 id st).store).store.appState.subjects
        = st.appState.subjects := by
  obtain ⟨s, hs, hsid⟩ := hid
  cases hfi : findIndex (fun s => s.id == id) st.appState.subjects with
  | none =>
    have := (findIndex_eq_none_iff _ _).mp hfi s hs
    simp [hsid] at this
  | some index =>
    obtain ⟨item, hitem, _⟩ := findIndex_some_get _ _ _ hfi
    have hlen := splice_remove_length _ _ _ hitem
    have hback := splice_insert_remove _ _ _ hitem
    by_cases hr : render (splice index 1 [] st.appState.subjects) = true
    · simp [deleteSubject, hfi, hitem, undoDelete, saveData, Store.setSubjects, showToast, hr,
        hlen, hback]
    · simp [deleteSubject, hfi, hitem, undoDelete, saveData, Store.setSubjects, showToast, hr,
        hlen, hback]

theorem delete_then_undo_restores_witness :
    (deleteSubject 100 "a" sampleStore).store.appState.subjects.length + 1
        = sampleStore.appState.subjects.length ∧
    (undoDelete 200 (deleteSubject 100 "a" sampleStore).store).store.appState.subjects
        = sampleStore.appState.subjects :=
  delete_then_undo_restores sampleStore "a" 100 200
    ⟨sampleMath, by simp [sampleStore], rfl⟩

theorem find_updateFound {α : Type} (p : α → Bool) (f : α → α) (l : List α)
    (hf : ∀ x, p (f x) = p x) : find p (updateFound p f l) = (find p l).map f := by
  induction l with
  | nil => simp [find, updateFound]
  | cons a l ih =>
    by_cases h : p a = true
    · simp [find, updateFound, h, hf]
    · simp [find, updateFound, h, ih]

theorem readCell_writeCell (cells : List Cell) (k : Nat) (v : Cell) :
    readCell (writeCell cells k v) k = v := by
  unfold readCell writeCell
  split
  · rename_i h
    simp [List.getD_eq_getElem?_getD, h]
  · rename_i h
    have hle : cells.length ≤ k := by omega
    rw [List.append_assoc, List.getD_eq_getElem?_getD, List.getElem?_append_right hle,
      List.getElem?_append_right (by simp)]
    simp

theorem statusAt_toggleStatus (now : Int) (id : String) (k : Nat) (st : Store) :
    statusAt (toggleStatus now id k st).store id k = (statusAt st id k).map nextStatus := by
  unfold statusAt toggleStatus
  cases hf : find (fun s => s.id == id) st.appState.subjects with
  | none => simp [hf]
  | some sub =>
    simp only [saveData, Store.setSubjects, Option.map_some']
    rw [find_updateFound (fun s : Subject => s.id == id)
      (fun s => { s with
        assignments := writeCell s.assignments k (nextStatus (readCell sub.assignments k)) })
      st.appState.subjects (fun x => rfl), hf]
    simp [readCell_writeCell]

theorem statusAt_toggleTimes (times : List Int) (id : String) (k : Nat) (st : Store) :
    statusAt (toggleTimes times id k st) id k
      = (statusAt st id k).map (nextStatus^[times.length]) := by
  induction times generalizing st with
  | nil => simp [toggleTimes]
  | cons t ts ih =>
    have := ih (toggleStatus t id k st).store
    simp only [toggleTimes, List.foldl_cons] at this ⊢
    rw [this, statusAt_toggleStatus]
    simp [Function.iterate_succ]

theorem nextStatus_cycle (v : Int) (h0 : 0 ≤ v) (h4 : v ≤ 4) :
    nextStatus (Cell.num v) = Cell.num ((v + 1) % 5) ∧
    nextStatus^[5] (Cell.num v) = Cell.num v ∧
    ∀ n, 1 ≤ n → n ≤ 4 → nextStatus^[n] (Cell.num v) ≠ Cell.num v := by
  have hv : v = 0 ∨ v = 1 ∨ v = 2 ∨ v = 3 ∨ v = 4 := by omega
  refine ⟨?_, ?_, ?_⟩
  · rcases hv with rfl | rfl | rfl | rfl | rfl <;> decide
  · rcases hv with rfl | rfl | rfl | rfl | rfl <;> decide
  · intro n h1 hn
    have hn : n = 1 ∨ n = 2 ∨ n = 3 ∨ n = 4 := by omega
    rcases hv with rfl | rfl | rfl | rfl | rfl <;>
      rcases hn with rfl | rfl | rfl | rfl <;> decide

/-- C2: for every store, every id for which `find` returns a subject and every
index `k` whose entry is a status `v` in `[0,4]`: one `toggleStatus(id, k)` sets
the entry to `(v + 1) mod 5`; five successive toggles bring it back to `v`; and
no number of toggles between 1 and 4 does, so the cycle has period exactly 5. -/
theorem toggleStatus_cycle (st : Store) (id : String) (k : Nat) (v : Int)
    (hentry : statusAt st id k = some (Cell.num v)) (h0 : 0 ≤ v) (h4 : v ≤ 4) :
    (∀ now, statusAt (toggleStatus now id k st).store id k = some (Cell.num ((v + 1) % 5))) ∧
    (∀ times : List Int, times.length = 5 →
      statusAt (toggleTimes times id k st) id k = some (Cell.num v)) ∧
    (∀ times : List Int, 1 ≤ times.length → times.length ≤ 4 →
      statusAt (toggleTimes times id k st) id k ≠ some (Cell.num v)) := by
  obtain ⟨h1, h5, hn⟩ := nextStatus_cycle v h0 h4
  refine ⟨?_, ?_, ?_⟩
  · intro now
    rw [statusAt_toggleStatus, hentry, Option.map_some', h1]
  · intro times hlen
    rw [statusAt_toggleTimes, hentry, Option.map_some', hlen, h5]
  · intro times hlo hhi
    rw [statusAt_toggleTimes, hentry, Option.map_some']
    intro h
    exact hn _ hlo hhi (Option.some.inj h)

theorem toggleStatus_cycle_witness :
    statusAt sampleStore "a" 2 = some (Cell.num 4) ∧
    statusAt (toggleStatus 7 "a" 2 sampleStore).store "a" 2 = some (Cell.num ((4 + 1) % 5)) ∧
    statusAt (toggleTimes [1, 2, 3, 4, 5] "a" 2 sampleStore) "a" 2 = some (Cell.num 4) ∧
    statusAt (toggleTimes [1, 2, 3] "a" 2 sampleStore) "a" 2 ≠ some (Cell.num 4) :=
  have h := toggleStatus_cycle sampleStore "a" 2 4 (by decide) (by decide) (by decide)
  ⟨by decide, h.1 7, h.2.1 [1, 2, 3, 4, 5] rfl, h.2.2 [1, 2, 3] (by decide) (by decide)⟩

theorem trimChars_of_all_white (cs : List Char) (h : ∀ c ∈ cs, isJsWhiteSpace c = true) :
    trimChars cs = [] := by
  have : cs.dropWhile isJsWhiteSpace = [] := by
    rw [List.dropWhile_eq_nil_iff]
    exact h
  simp [trimChars, this]

theorem trim_of_all_white (name : String) (h : ∀ c ∈ name.data, isJsWhiteSpace c = true) :
    trim name = "" := by
  unfold trim
  rw [trimChars_of_all_white _ h]

theorem trimChars_spec (cs : List Char) :
    ∃ pre post, cs = pre ++ trimChars cs ++ post ∧
      (∀ c ∈ pre, isJsWhiteSpace c = true) ∧ (∀ c ∈ post, isJsWhiteSpace c = true) ∧
      (∀ c, (trimChars cs).head? = some c → isJsWhiteSpace c = false) ∧
      (∀ c, (trimChars cs).getLast? = some c → isJsWhiteSpace c = false) := by
  have hsplit := List.takeWhile_append_dropWhile isJsWhiteSpace cs
  have hrev := List.takeWhile_append_dropWhile isJsWhiteSpace
    (cs.dropWhile isJsWhiteSpace).reverse
  have hmid : cs.dropWhile isJsWhiteSpace
      = trimChars cs ++ ((cs.dropWhile isJsWhiteSpace).reverse.takeWhile isJsWhiteSpace).reverse := by
    have := congrArg List.reverse hrev
    rw [List.reverse_append, List.reverse_reverse] at this
    exact this.symm
  refine ⟨cs.takeWhile isJsWhiteSpace,
    ((cs.dropWhile isJsWhiteSpace).reverse.takeWhile isJsWhiteSpace).reverse, ?_, ?_, ?_, ?_, ?_⟩
  · rw [List.append_assoc, ← hmid, hsplit]
  · intro c hc
    exact List.mem_takeWhile_imp hc
  · intro c hc
    exact List.mem_takeWhile_imp (List.mem_reverse.mp hc)
  · intro c hc
    have hne : trimChars cs ≠ [] := by
      intro h
      rw [h] at hc
      cases hc
    have hhead : (cs.dropWhile isJsWhiteSpace).head? = some c := by
      rw [hmid, List.head?_append_of_ne_nil _ hne, hc]
    have := List.head?_dropWhile_not isJsWhiteSpace cs
    rw [hhead] at this
    exact this
  · intro c hc
    have hlast : ((cs.dropWhile isJsWhiteSpace).reverse.dropWhile isJsWhiteSpace).head?
        = some c := by
      rw [← List.getLast?_reverse]
      exact hc
    have := List.head?_dropWhile_not isJsWhiteSpace (cs.dropWhile isJsWhiteSpace).reverse
    rw [hlast] at this
    exact this

theorem trimChars_ne_nil (cs : List Char) (h : ∃ c ∈ cs, isJsWhiteSpace c = false) :
    trimChars cs ≠ [] := by
  obtain ⟨c, hc, hws⟩ := h
  obtain ⟨pre, post, hcs, hpre, hpost, _, _⟩ := trimChars_spec cs
  intro hnil
  rw [hnil, List.append_nil] at hcs
  rw [hcs, List.mem_append] at hc
  rcases hc with hc | hc
  · rw [hpre c hc] at hws
    cases hws
  · rw [hpost c hc] at hws
    cases hws

theorem trim_ne_empty (name : String) (h : ∃ c ∈ name.data, isJsWhiteSpace c = false) :
    trim name ≠ "" := by
  intro hempty
  exact trimChars_ne_nil name.data h (congrArg String.data hempty)

/-- C3, as amended: for every store and every name with a character that is
not white space (so that its trimmed form is not empty), `addSubject(name)`
appends exactly one subject at the end of the list and leaves all others in
place.  The new subject carries the assignments `[0,0,0,0,0]`, the creation
time, and as name the input without its leading and trailing white space (the
input is white space, then the name, then white space, and the name neither
starts nor ends with white space).  Its id is the generated value, which is not
compared with the ids in the list: it differs from the id of every subject
already there exactly when the generated value does. -/
theorem addSubject_appends (st : Store) (uuid : String) (createdAt now : Int) (name : String)
    (hname : ∃ c ∈ name.data, isJsWhiteSpace c = false) :
    ∃ newSubject : Subject,
      (addSubject uuid createdAt now name st).store.appState.subjects
        = st.appState.subjects ++ [newSubject] ∧
      newSubject.assignments = [Cell.num 0, Cell.num 0, Cell.num 0, Cell.num 0, Cell.num 0] ∧
      newSubject.createdAt = createdAt ∧
      newSubject.name = trim name ∧
      newSubject.name ≠ "" ∧
      (∃ pre post, name.data = pre ++ newSubject.name.data ++ post ∧
        (∀ c ∈ pre, isJsWhiteSpace c = true) ∧ (∀ c ∈ post, isJsWhiteSpace c = true)) ∧
      (∀ c, newSubject.name.data.head? = some c → isJsWhiteSpace c = false) ∧
      (∀ c, newSubject.name.data.getLast? = some c → isJsWhiteSpace c = false) ∧
      newSubject.id = uuid ∧
      ((∀ s ∈ st.appState.subjects, s.id ≠ newSubject.id) ↔
        uuid ∉ st.appState.subjects.map fun s => s.id) := by
  have hne := trim_ne_empty name hname
  obtain ⟨pre, post, hcs, hpre, hpost, hhead, hlast⟩ := trimChars_spec name.data
  refine ⟨⟨uuid, trim name, zeroAssignments, createdAt⟩, ?_, rfl, rfl, rfl, hne,
    ⟨pre, post, hcs, hpre, hpost⟩, hhead, hlast, rfl, ?_⟩
  · simp [addSubject, hne, saveData, Store.setSubjects]
  · simp only [List.mem_map, not_exists, not_and]

theorem addSubject_appends_witness :
    (∃ newSubject : Subject,
      (addSubject "c" 30 31 "  Math " sampleStore).store.appState.subjects
        = sampleStore.appState.subjects ++ [newSubject] ∧
      newSubject.assignments = [Cell.num 0, Cell.num 0, Cell.num 0, Cell.num 0, Cell.num 0] ∧
      newSubject.createdAt = 30 ∧
      newSubject.name = trim "  Math " ∧
      newSubject.name ≠ "" ∧
      (∃ pre post, "  Math ".data = pre ++ newSubject.name.data ++ post ∧
        (∀ c ∈ pre, isJsWhiteSpace c = true) ∧ (∀ c ∈ post, isJsWhiteSpace c = true)) ∧
      (∀ c, newSubject.name.data.head? = some c → isJsWhiteSpace c = false) ∧
      (∀ c, newSubject.name.data.getLast? = some c → isJsWhiteSpace c = false) ∧
      newSubject.id = "c" ∧
      ((∀ s ∈ sampleStore.appState.subjects, s.id ≠ newSubject.id) ↔
        "c" ∉ sampleStore.appState.subjects.map fun s => s.id)) ∧
    (addSubject "c" 30 31 "  Math " sampleStore).store.appState.subjects
      = [sampleMath, samplePhysics, ⟨"c", "Math", zeroAssignments, 30⟩] :=
  ⟨addSubject_appends sampleStore "c" 30 31 "  Math " (by decide), by decide⟩

/-- C3 as stated fails: the generated id is not compared with the ids in the
list.  With the generated value "a", the id of the listed subject "Math", a
subject "Chemistry" is appended all the same, and the ids of the list are then
a, b, a: the new id equals the id of a subject that was already there. -/
theorem addSubject_id_collides :
    (∃ c ∈ "Chemistry".data, isJsWhiteSpace c = false) ∧
    (addSubject "a" 30 31 "Chemistry" sampleStore).store.appState.subjects
      = sampleStore.appState.subjects ++ [⟨"a", "Chemistry", zeroAssignments, 30⟩] ∧
    (∃ s ∈ sampleStore.appState.subjects, s.id = "a") ∧
    (addSubject "a" 30 31 "Chemistry" sampleStore).store.appState.subjects.map (fun s => s.id)
      = ["a", "b", "a"] := by
  refine ⟨by decide, by decide, by decide, by decide⟩

/-- C4: the guarded operations are no-ops on their guard.  For every store,
`addSubject` with a name made of white space only (in particular the empty
name and three blanks), and `deleteSubject`, `resetSubject`, `toggleStatus` and
`updateName` with an id that no subject carries, return normally and leave
the whole store (subjects, theme, undo buffer, timer and storage) as it was. -/
theorem guarded_operations_are_noops (st : Store) (uuid name id newName : String)
    (createdAt now : Int) (k : Nat)
    (hname : ∀ c ∈ name.data, isJsWhiteSpace c = true)
    (hid : ∀ s ∈ st.appState.subjects, s.id ≠ id) :
    addSubject uuid createdAt now name st = ⟨st, false⟩ ∧
    addSubject uuid createdAt now "" st = ⟨st, false⟩ ∧
    addSubject uuid createdAt now "   " st = ⟨st, false⟩ ∧
    deleteSubject now id st = ⟨st, false⟩ ∧
    resetSubject now id st = ⟨st, false⟩ ∧
    toggleStatus now id k st = ⟨st, false⟩ ∧
    updateName now id newName st = ⟨st, false⟩ := by
  have hfind : find (fun s : Subject => s.id == id) st.appState.subjects = none := by
    rw [find_eq_none_iff]
    intro s hs
    simpa using hid s hs
  have hfindIndex : findIndex (fun s : Subject => s.id == id) st.appState.subjects = none := by
    rw [findIndex_eq_none_iff]
    intro s hs
    simpa using hid s hs
  have hempty : trim "" = "" := by decide
  have hblank : trim "   " = "" := by decide
  refine ⟨?_, ?_, ?_, ?_, ?_, ?_, ?_⟩
  · simp [addSubject, trim_of_all_white name hname]
  · simp [addSubject, hempty]
  · simp [addSubject, hblank]
  · simp [deleteSubject, hfindIndex]
  · simp [resetSubject, hfind]
  · simp [toggleStatus, hfind]
  · simp [updateName, hfind]

theorem guarded_operations_are_noops_witness :
    addSubject "c" 30 31 " \t\n" sampleStore = ⟨sampleStore, false⟩ ∧
    addSubject "c" 30 31 "" sampleStore = ⟨sampleStore, false⟩ ∧
    addSubject "c" 30 31 "   " sampleStore = ⟨sampleStore, false⟩ ∧
    deleteSubject 31 "zz" sampleStore = ⟨sampleStore, false⟩ ∧
    resetSubject 31 "zz" sampleStore = ⟨sampleStore, false⟩ ∧
    toggleStatus 31 "zz" 2 sampleStore = ⟨sampleStore, false⟩ ∧
    updateName 31 "zz" "Chemistry" sampleStore = ⟨sampleStore, false⟩ :=
  guarded_operations_are_noops sampleStore "c" " \t\n" "zz" "Chemistry" 30 31 2
    (by decide) (by decide)

/-! ### Persistence round trip -/

theorem decodeAll_map {α : Type} (decode : Json → Option α) (encode : α → Json) (l : List α)
    (h : ∀ x ∈ l, decode (encode x) = some x) : decodeAll decode (l.map encode) = some l := by
  induction l with
  | nil => rfl
  | cons a l ih =>
    have ha := h a (List.mem_cons_self _ _)
    have hl := ih fun x hx => h x (List.mem_cons_of_mem _ hx)
    simp [decodeAll, ha, hl]

theorem cell_ofJson_toJson (c : Cell) (h : c.isNum = true) : Cell.ofJson c.toJson = some c := by
  cases c with
  | num n => rfl
  | nan => simp [Cell.isNum] at h
  | null => simp [Cell.isNum] at h
  | hole => simp [Cell.isNum] at h

theorem subject_ofJson_toJson (s : Subject) (h : ∀ c ∈ s.assignments, c.isNum = true) :
    Subject.ofJson s.toJson = some s := by
  have hcells := decodeAll_map Cell.ofJson Cell.toJson s.assignments
    fun c hc => cell_ofJson_toJson c (h c hc)
  have hid : (s.toJson.field "id").bind Json.asStr = some s.id := rfl
  have hnm : (s.toJson.field "name").bind Json.asStr = some s.name := rfl
  have hcr : (s.toJson.field "createdAt").bind Json.asNum = some s.createdAt := rfl
  have has : (s.toJson.field "assignments").bind Json.asArr
      = some (s.assignments.map Cell.toJson) := rfl
  unfold Subject.ofJson
  rw [hid, hnm, hcr, has]
  simp [Subject.toJson, hcells]

theorem mergeParsed_toJson (current : AppState) (version : Int) (theme : String)
    (subjects : List Subject) (lastUpdated : Int)
    (h : ∀ s ∈ subjects, ∀ c ∈ s.assignments, c.isNum = true) :
    mergeParsed current
        (AppState.toJson ⟨some version, some theme, subjects, some lastUpdated⟩)
      = some ⟨some version, some theme, subjects, some lastUpdated⟩ := by
  have hsubjects := decodeAll_map Subject.ofJson Subject.toJson subjects
    fun s hs => subject_ofJson_toJson s (h s hs)
  have hv : optField Json.asNum "version"
      (AppState.toJson ⟨some version, some theme, subjects, some lastUpdated⟩)
        = some (some version) := rfl
  have ht : optField Json.asStr "theme"
      (AppState.toJson ⟨some version, some theme, subjects, some lastUpdated⟩)
        = some (some theme) := rfl
  have hu : optField Json.asNum "lastUpdated"
      (AppState.toJson ⟨some version, some theme, subjects, some lastUpdated⟩)
        = some (some lastUpdated) := rfl
  have hs : optField decodeSubjects "subjects"
      (AppState.toJson ⟨some version, some theme, subjects, some lastUpdated⟩)
        = some (some subjects) := by
    have : (AppState.toJson ⟨some version, some theme, subjects, some lastUpdated⟩).field
        "subjects" = some (Json.arr (subjects.map Subject.toJson)) := rfl
    simp [optField, this, decodeSubjects, Json.asArr, hsubjects]
  unfold mergeParsed
  rw [hv, ht, hu, hs]
  simp [AppState.toJson, Option.orElse]

/-- C5, as amended: for every structurally valid state `s`, every save time and
every process loading afterwards (whatever it holds in memory), `saveData`
followed by `loadData` yields the state `s` with `lastUpdated` set to the save
time, which is the in-memory state `saveData` left behind; `version`, `theme`
and `subjects` come back exactly as in `s`. -/
theorem load_after_save (st loader : Store) (now : Int)
    (hvalid : StructurallyValid st.appState) :
    (saveData now st).appState = { st.appState with lastUpdated := some now } ∧
    loadData { loader with storage := (saveData now st).storage }
      = some { loader with
          storage := (saveData now st).storage,
          appState := { st.appState with lastUpdated := some now } } := by
  obtain ⟨hv, ht, hs⟩ := hvalid
  obtain ⟨version, hversion⟩ := Option.isSome_iff_exists.mp hv
  obtain ⟨theme, htheme⟩ := Option.isSome_iff_exists.mp ht
  refine ⟨rfl, ?_⟩
  have hmerge := mergeParsed_toJson loader.appState version theme st.appState.subjects now
    fun s hs1 => (hs s hs1).2
  simp only [loadData, saveData, hversion, htheme, hmerge, Option.map_some']

theorem load_after_save_witness :
    (saveData 1000 (storeOf sampleState)).appState
      = { sampleState with lastUpdated := some 1000 } ∧
    loadData { initialStore none with storage := (saveData 1000 (storeOf sampleState)).storage }
      = some { initialStore none with
          storage := (saveData 1000 (storeOf sampleState)).storage,
          appState := { sampleState with lastUpdated := some 1000 } } :=
  load_after_save (storeOf sampleState) (initialStore none) 1000 (by decide)

/-- C5 as stated fails: the schema-conformant sample state, last saved at time
0, is saved at time 1000 and loaded by a fresh process; the state in memory
after the load is not the state that was saved, its `lastUpdated` being 1000. -/
theorem load_after_save_differs :
    StructurallyValid sampleState ∧
    (loadData (initialStore (saveData 1000 (storeOf sampleState)).storage)).map
        (fun st => st.appState)
      = some { sampleState with lastUpdated := some 1000 } ∧
    (loadData (initialStore (saveData 1000 (storeOf sampleState)).storage)).map
        (fun st => st.appState)
      ≠ some sampleState := by
  refine ⟨by decide, by decide, by decide⟩

/-! ### Rejected backup files -/

/-- C6: for every store, every clock reading and either answer to the
confirmation dialog, a file that does not parse, or that parses to a document
whose `subjects` property is not an array (absent, `null` or any other value),
is rejected with an alert, and the run of the dialog returns normally with the
store (application state, undo buffer, timer and stored snapshot) exactly as
it was. -/
theorem importData_rejects (file : Raw) (now : Int) (confirmed : Bool) (st : Store)
    (hfile : ∀ doc items, file = Raw.wellformed doc →
      doc.field "subjects" ≠ some (Json.arr items)) :
    (importData file = ImportDecision.invalidFormat ∨
      importData file = ImportDecision.readError) ∧
    importSession now file confirmed st = some ⟨st, false⟩ := by
  have hdecision : importData file = ImportDecision.invalidFormat ∨
      importData file = ImportDecision.readError := by
    cases file with
    | malformed => exact Or.inr rfl
    | wellformed doc =>
      cases hsub : doc.field "subjects" with
      | none => cases doc <;> simp [importData, hsub]
      | some v =>
        cases v with
        | arr items => exact absurd hsub (hfile doc items rfl)
        | null => cases doc <;> simp [importData, hsub]
        | bool b => cases doc <;> simp [importData, hsub]
        | num n => cases doc <;> simp [importData, hsub]
        | str s => cases doc <;> simp [importData, hsub]
        | obj fields => cases doc <;> simp [importData, hsub]
  refine ⟨hdecision, ?_⟩
  rcases hdecision with h | h <;> simp [importSession, h]

theorem importData_rejects_witness :
    (importData (Raw.wellformed (Json.obj [("theme", Json.str "sea"), ("subjects", Json.null)]))
        = ImportDecision.invalidFormat ∨
      importData (Raw.wellformed (Json.obj [("theme", Json.str "sea"), ("subjects", Json.null)]))
        = ImportDecision.readError) ∧
    importSession 50
        (Raw.wellformed (Json.obj [("theme", Json.str "sea"), ("subjects", Json.null)]))
        true sampleStore
      = some ⟨sampleStore, false⟩ :=
  importData_rejects
    (Raw.wellformed (Json.obj [("theme", Json.str "sea"), ("subjects", Json.null)]))
    50 true sampleStore
    (by
      intro doc items hdoc
      cases hdoc
      simp [Json.field, find])

/-! ### Expiry of the undo buffer -/

theorem expire_appState (now : Int) (st : Store) : (expire now st).appState = st.appState := by
  unfold expire undoTimeoutFires
  cases st.undoTimeout with
  | none => rfl
  | some deadline =>
    by_cases h : deadline < now
    · simp [h]
    · simp [h]

theorem expire_expiresBy (bound now : Int) (st : Store) (h : ExpiresBy bound st) :
    ExpiresBy bound (expire now st) := by
  unfold expire
  cases ht : st.undoTimeout with
  | none => simpa using h
  | some deadline =>
    by_cases hlt : deadline < now
    · simp only [hlt, if_true]
      exact Or.inl rfl
    · simpa [hlt] using h

theorem expire_overdue (bound now : Int) (st : Store) (h : ExpiresBy bound st)
    (hlate : bound < now) : (expire now st).undoStack = none := by
  unfold expire
  rcases h with h | ⟨deadline, hd, hle⟩
  · cases st.undoTimeout with
    | none => simpa using h
    | some deadline =>
      by_cases hlt : deadline < now
      · simp [hlt, undoTimeoutFires]
      · simpa [hlt] using h
  · have hlt : deadline < now := lt_of_le_of_lt hle hlate
    simp [hd, hlt, undoTimeoutFires]

theorem handle_quiet_expiresBy (bound now : Int) (e : Event) (st : Store)
    (hq : e.isQuiet = true) (h : ExpiresBy bound st) :
    ExpiresBy bound (handle now e st).store := by
  cases e with
  | deleteSubject id => simp [Event.isQuiet] at hq
  | resetAll => simp [Event.isQuiet] at hq
  | replaceAll parsed => simp [Event.isQuiet] at hq
  | showToast => simp [Event.isQuiet] at hq
  | addSubject uuid createdAt name =>
    by_cases hn : trim name = ""
    · simpa [handle, addSubject, hn] using h
    · simpa [handle, addSubject, hn, ExpiresBy, saveData, Store.setSubjects] using h
  | undoDelete =>
    cases hu : st.undoStack with
    | none => simpa [handle, undoDelete, hu] using h
    | some entry => exact Or.inl (by simp [handle, undoDelete, hu, saveData, Store.setSubjects])
  | resetSubject id =>
    cases hf : find (fun s : Subject => s.id == id) st.appState.subjects with
    | none => simpa [handle, resetSubject, hf] using h
    | some sub => simpa [handle, resetSubject, hf, ExpiresBy, saveData, Store.setSubjects] using h
  | toggleStatus subjectId assignIndex =>
    cases hf : find (fun s : Subject => s.id == subjectId) st.appState.subjects with
    | none => simpa [handle, toggleStatus, hf] using h
    | some sub => simpa [handle, toggleStatus, hf, ExpiresBy, saveData, Store.setSubjects] using h
  | updateName id newName =>
    cases hf : find (fun s : Subject => s.id == id) st.appState.subjects with
    | none => simpa [handle, updateName, hf] using h
    | some sub =>
      by_cases hn : trim newName = sub.name
      · simpa [handle, updateName, hf, hn] using h
      · simpa [handle, updateName, hf, hn, ExpiresBy, saveData, Store.setSubjects] using h
  | changeTheme themeName => simpa [handle, changeTheme, ExpiresBy, saveData] using h

theorem run_quiet_expiresBy (bound : Int) (events : List (Int × Event)) (st : Store)
    (hq : ∀ te ∈ events, te.2.isQuiet = true) (h : ExpiresBy bound st) :
    ExpiresBy bound (run st events) := by
  induction events generalizing st with
  | nil => simpa [run] using h
  | cons te rest ih =>
    have hstep : ExpiresBy bound (dispatch te.1 te.2 st) :=
      handle_quiet_expiresBy bound te.1 te.2 _ (hq te (List.mem_cons_self _ _))
        (expire_expiresBy bound te.1 st h)
    have := ih (dispatch te.1 te.2 st) (fun x hx => hq x (List.mem_cons_of_mem _ hx)) hstep
    simpa [run] using this

theorem deleteSubject_arms_timer (now : Int) (id : String) (st : Store)
    (hrender : render (deleteSubject now id st).store.appState.subjects = true)
    (hid : ∃ s ∈ st.appState.subjects, s.id = id) :
    ExpiresBy (now + UNDO_WINDOW) (deleteSubject now id st).store := by
  obtain ⟨s, hs, hsid⟩ := hid
  cases hfi : findIndex (fun s : Subject => s.id == id) st.appState.subjects with
  | none =>
    have := (findIndex_eq_none_iff _ _).mp hfi s hs
    simp [hsid] at this
  | some index =>
    obtain ⟨item, hitem, _⟩ := findIndex_some_get _ _ _ hfi
    by_cases hr : render (splice index 1 [] st.appState.subjects) = true
    · refine Or.inr ⟨now + UNDO_WINDOW, ?_, le_refl _⟩
      simp [deleteSubject, hfi, hitem, saveData, Store.setSubjects, showToast, hr]
    · simp [deleteSubject, hfi, hitem, saveData, Store.setSubjects, showToast, hr] at hrender

/-- C7, as amended: in every run, if a `deleteSubject` call at time `t0` removes
a subject and shows its toast (the remaining cards render), and `undoDelete()`
is called more than 5 seconds after `t0` with neither a deletion nor any other
toast (`resetAll`, a confirmed import, an informational toast) in between, then
it is a no-op: the list of subjects is unchanged. -/
theorem undoDelete_after_window (st : Store) (t0 t : Int) (id : String)
    (events : List (Int × Event))
    (hid : ∃ s ∈ st.appState.subjects, s.id = id)
    (hrender : render (dispatch t0 (Event.deleteSubject id) st).appState.subjects = true)
    (hquiet : ∀ te ∈ events, te.2.isQuiet = true)
    (hlate : t0 + 5000 < t) :
    (dispatch t Event.undoDelete (run (dispatch t0 (Event.deleteSubject id) st) events)).appState.subjects
      = (run (dispatch t0 (Event.deleteSubject id) st) events).appState.subjects := by
  have hid1 : ∃ s ∈ (expire t0 st).appState.subjects, s.id = id := by
    rw [expire_appState]; exact hid
  have harmed : ExpiresBy (t0 + UNDO_WINDOW) (dispatch t0 (Event.deleteSubject id) st) :=
    deleteSubject_arms_timer t0 id (expire t0 st) hrender hid1
  have hrun := run_quiet_expiresBy _ events _ hquiet harmed
  have hnone := expire_overdue _ t _ hrun hlate
  have happ := expire_appState t (run (dispatch t0 (Event.deleteSubject id) st) events)
  generalize run (dispatch t0 (Event.deleteSubject id) st) events = st1 at hnone happ ⊢
  show (undoDelete t (expire t st1)).store.appState.subjects = st1.appState.subjects
  simp only [undoDelete, hnone, happ]

theorem undoDelete_after_window_witness :
    (dispatch 5001 Event.undoDelete
        (run (dispatch 0 (Event.deleteSubject "a") sampleStore)
          [(1000, Event.toggleStatus "b" 0), (2000, Event.updateName "b" "Chemistry")])).appState.subjects
      = (run (dispatch 0 (Event.deleteSubject "a") sampleStore)
          [(1000, Event.toggleStatus "b" 0), (2000, Event.updateName "b" "Chemistry")]).appState.subjects :=
  undoDelete_after_window sampleStore 0 5001 "a"
    [(1000, Event.toggleStatus "b" 0), (2000, Event.updateName "b" "Chemistry")]
    ⟨sampleMath, by simp [sampleStore], rfl⟩ (by decide) (by decide) (by decide)

/-- C7 as stated fails: "Math" is deleted at time 0; at time 4000 a toast
without undo button is shown, which restarts the timer; `undoDelete()` at time
6000, more than 5 seconds after the only deletion, puts "Math" back. -/
theorem undoDelete_after_window_restores :
    (run sampleStore [(0, Event.deleteSubject "a"), (4000, Event.showToast)]).appState.subjects
      = [samplePhysics] ∧
    (dispatch 6000 Event.undoDelete
        (run sampleStore [(0, Event.deleteSubject "a"), (4000, Event.showToast)])).appState.subjects
      = [sampleMath, samplePhysics] := by
  refine ⟨by decide, by decide⟩

/-! ### Uniqueness of subject ids -/

theorem map_id_updateFound (p : Subject → Bool) (f : Subject → Subject) (l : List Subject)
    (hf : ∀ x, (f x).id = x.id) :
    (updateFound p f l).map (fun s => s.id) = l.map (fun s => s.id) := by
  induction l with
  | nil => rfl
  | cons a l ih =>
    by_cases h : p a = true
    · simp [updateFound, h, hf]
    · simp [updateFound, h, ih]

theorem splice_remove_perm {α : Type} (l : List α) (i : Nat) (x : α) (h : l[i]? = some x) :
    (x :: splice i 1 [] l).Perm l := by
  induction l generalizing i with
  | nil => simp at h
  | cons a l ih =>
    cases i with
    | zero =>
      simp at h
      subst h
      simp [splice]
    | succ j =>
      have hj : l[j]? = some x := by simpa using h
      have hperm := ih j hj
      have hs : splice (j + 1) 1 [] (a :: l) = a :: splice j 1 [] l := by
        simp [splice]
      rw [hs]
      exact (List.Perm.swap a x _).trans (hperm.cons a)

theorem splice_insert_perm {α : Type} (l : List α) (i : Nat) (x : α) :
    (splice i 0 [x] l).Perm (x :: l) := by
  have h : splice i 0 [x] l = l.take i ++ x :: l.drop i := by simp [splice]
  rw [h]
  exact List.perm_middle.trans (by rw [List.take_append_drop])

theorem expire_heldIds_nodup (now : Int) (st : Store) (h : (heldIds st).Nodup) :
    (heldIds (expire now st)).Nodup := by
  unfold expire
  cases st.undoTimeout with
  | none => simpa using h
  | some deadline =>
    by_cases hlt : deadline < now
    · simp only [hlt, if_true, heldIds, undoTimeoutFires, Option.toList, List.map_nil,
        List.append_nil]
      exact (List.nodup_append.mp h).1
    · simpa [hlt] using h

theorem handle_heldIds_nodup (now : Int) (e : Event) (st : Store)
    (hinv : (heldIds st).Nodup) (hc : bufferCondition st e = true) :
    (heldIds (handle now e st).store).Nodup := by
  have hlist : (st.appState.subjects.map fun s => s.id).Nodup := (List.nodup_append.mp hinv).1
  cases e with
  | addSubject uuid createdAt name =>
    by_cases hn : trim name = ""
    · simpa [handle, addSubject, hn] using hinv
    · have hfresh : uuid ∉ heldIds st := by simpa [bufferCondition] using hc
      have hperm : (heldIds (handle now (Event.addSubject uuid createdAt name) st).store).Perm
          (uuid :: heldIds st) := by
        simp only [handle, addSubject, hn, heldIds, saveData, Store.setSubjects, List.map_append,
          List.map_cons, List.map_nil, beq_iff_eq, if_false]
        rw [List.append_assoc]
        exact List.perm_middle
      exact hperm.nodup_iff.mpr (List.nodup_cons.mpr ⟨hfresh, hinv⟩)
  | deleteSubject id =>
    cases hfi : findIndex (fun s : Subject => s.id == id) st.appState.subjects with
    | none => simpa [handle, deleteSubject, hfi] using hinv
    | some index =>
      obtain ⟨item, hitem, _⟩ := findIndex_some_get _ _ _ hfi
      have hperm := (splice_remove_perm _ _ _ hitem).map (fun s : Subject => s.id)
      have hnodup : ((splice index 1 [] st.appState.subjects).map (fun s => s.id)
          ++ [item.id]).Nodup := by
        refine (List.Perm.nodup_iff ?_).mpr hlist
        refine List.Perm.trans ?_ hperm
        simp
      by_cases hr : render (splice index 1 [] st.appState.subjects) = true
      · simpa [handle, deleteSubject, hfi, hitem, heldIds, saveData, Store.setSubjects,
          showToast, hr] using hnodup
      · simpa [handle, deleteSubject, hfi, hitem, heldIds, saveData, Store.setSubjects,
          showToast, hr] using hnodup
  | undoDelete =>
    cases hu : st.undoStack with
    | none => simpa [handle, undoDelete, hu] using hinv
    | some entry =>
      have hperm := (splice_insert_perm st.appState.subjects entry.index entry.item).map
        (fun s : Subject => s.id)
      have hold : (entry.item.id :: st.appState.subjects.map fun s => s.id).Nodup := by
        have : (heldIds st).Perm (entry.item.id :: st.appState.subjects.map fun s => s.id) := by
          simp only [heldIds, hu, Option.toList, List.map_cons, List.map_nil]
          exact List.perm_append_comm
        exact this.nodup_iff.mp hinv
      have := hperm.nodup_iff.mpr (by simpa using hold)
      simpa [handle, undoDelete, hu, heldIds, saveData, Store.setSubjects] using this
  | resetSubject id =>
    cases hf : find (fun s : Subject => s.id == id) st.appState.subjects with
    | none => simpa [handle, resetSubject, hf] using hinv
    | some sub =>
      simp only [handle, resetSubject, hf, heldIds, saveData, Store.setSubjects]
      rw [map_id_updateFound _ _ _ (by intro x; rfl)]
      exact hinv
  | toggleStatus subjectId assignIndex =>
    cases hf : find (fun s : Subject => s.id == subjectId) st.appState.subjects with
    | none => simpa [handle, toggleStatus, hf] using hinv
    | some sub =>
      simp only [handle, toggleStatus, hf, heldIds, saveData, Store.setSubjects]
      rw [map_id_updateFound _ _ _ (by intro x; rfl)]
      exact hinv
  | updateName id newName =>
    cases hf : find (fun s : Subject => s.id == id) st.appState.subjects with
    | none => simpa [handle, updateName, hf] using hinv
    | some sub =>
      by_cases hn : trim newName = sub.name
      · simpa [handle, updateName, hf, hn] using hinv
      · simp only [handle, updateName, hf, hn, heldIds, saveData, Store.setSubjects, bne_iff_ne,
          ne_eq, not_false_eq_true, if_true]
        rw [map_id_updateFound _ _ _ (by intro x; rfl)]
        exact hinv
  | resetAll =>
    have hbuf := (List.nodup_append.mp hinv).2.1
    simpa [handle, resetAll, heldIds, saveData, Store.setSubjects, showToast, render] using hbuf
  | replaceAll parsed =>
    have hnew : ((parsed.subjects.map fun s => s.id) ++
        st.undoStack.toList.map fun u => u.item.id).Nodup := by
      simpa [bufferCondition] using hc
    by_cases hr : render parsed.subjects = true
    · simpa [handle, replaceAll, heldIds, saveData, showToast, hr] using hnew
    · simpa [handle, replaceAll, heldIds, saveData, showToast, hr] using hnew
  | changeTheme themeName => simpa [handle, changeTheme, heldIds, saveData] using hinv
  | showToast => simpa [handle, showToast, heldIds] using hinv

theorem run_heldIds_nodup (events : List (Int × Event)) (st : Store)
    (hinv : (heldIds st).Nodup) (hc : runSatisfies bufferCondition st events = true) :
    (heldIds (run st events)).Nodup := by
  induction events generalizing st with
  | nil => simpa [run] using hinv
  | cons te rest ih =>
    simp only [runSatisfies, Bool.and_eq_true] at hc
    have hstep : (heldIds (dispatch te.1 te.2 st)).Nodup :=
      handle_heldIds_nodup te.1 te.2 _ (expire_heldIds_nodup te.1 st hinv) hc.1
    have := ih (dispatch te.1 te.2 st) hstep hc.2
    simpa [run] using this

/-- C8, as amended: starting from the default state with no subjects and an
empty undo buffer, after any finite run of store operations (and timer
expiries) in which every generated id is fresh (differs from all ids held by
the store) and every snapshot given to `replaceAll` has pairwise distinct ids
that also differ from the id of the subject in the undo buffer, no two
subjects of the list have the same id. -/
theorem subject_ids_unique (storage : Option Raw) (events : List (Int × Event))
    (hevents : runSatisfies bufferCondition (initialStore storage) events = true) :
    ((run (initialStore storage) events).appState.subjects.map fun s => s.id).Nodup := by
  have hinit : (heldIds (initialStore storage)).Nodup := by
    simp [heldIds, initialStore, defaultState]
  exact (List.nodup_append.mp (run_heldIds_nodup events _ hinit hevents)).1

theorem subject_ids_unique_witness :
    ((run (initialStore none)
        [(0, Event.addSubject "a" 0 "Math"), (10, Event.addSubject "b" 10 "Physics"),
         (20, Event.deleteSubject "a"), (30, Event.toggleStatus "b" 1),
         (40, Event.undoDelete)]).appState.subjects.map fun s => s.id).Nodup :=
  subject_ids_unique none
    [(0, Event.addSubject "a" 0 "Math"), (10, Event.addSubject "b" 10 "Physics"),
     (20, Event.deleteSubject "a"), (30, Event.toggleStatus "b" 1),
     (40, Event.undoDelete)]
    (by decide)

/-- C8 as stated fails: a subject is added with the fresh id "a" and deleted;
a backup with pairwise distinct ids that contains a subject "a" is restored;
`undoDelete()` then puts the deleted subject back next to the restored one. -/
theorem subject_ids_repeat :
    runSatisfies statedCondition (initialStore none)
        [(0, Event.addSubject "a" 0 "Math"), (1000, Event.deleteSubject "a"),
         (2000, Event.replaceAll { defaultState with subjects := [sampleMath] }),
         (3000, Event.undoDelete)] = true ∧
    (run (initialStore none)
        [(0, Event.addSubject "a" 0 "Math"), (1000, Event.deleteSubject "a"),
         (2000, Event.replaceAll { defaultState with subjects := [sampleMath] }),
         (3000, Event.undoDelete)]).appState.subjects.map (fun s => s.id) = ["a", "a"] ∧
    ¬ ((run (initialStore none)
        [(0, Event.addSubject "a" 0 "Math"), (1000, Event.deleteSubject "a"),
         (2000, Event.replaceAll { defaultState with subjects := [sampleMath] }),
         (3000, Event.undoDelete)]).appState.subjects.map fun s => s.id).Nodup := by
  refine ⟨by decide, by decide, by decide⟩

/-! ### Shape of the assignments -/

theorem find_mem {α : Type} (p : α → Bool) (l : List α) (x : α) (h : find p l = some x) :
    x ∈ l := by
  induction l with
  | nil => simp [find] at h
  | cons a l ih =>
    by_cases hp : p a = true
    · simp [find, hp] at h
      simp [h]
    · simp [find, hp] at h
      exact List.mem_cons_of_mem _ (ih h)

theorem mem_updateFound {α : Type} (p : α → Bool) (f : α → α) (l : List α) (y : α)
    (h : y ∈ updateFound p f l) : y ∈ l ∨ ∃ x ∈ l, y = f x := by
  induction l with
  | nil => simp [updateFound] at h
  | cons a l ih =>
    by_cases hp : p a = true
    · simp [updateFound, hp] at h
      rcases h with h | h
      · exact Or.inr ⟨a, List.mem_cons_self _ _, h⟩
      · exact Or.inl (List.mem_cons_of_mem _ h)
    · simp [updateFound, hp] at h
      rcases h with h | h
      · exact Or.inl (by simp [h])
      · rcases ih h with h1 | ⟨x, hx, hy⟩
        · exact Or.inl (List.mem_cons_of_mem _ h1)
        · exact Or.inr ⟨x, List.mem_cons_of_mem _ hx, hy⟩

theorem mem_splice {α : Type} (start deleteCount : Nat) (items l : List α) (y : α)
    (h : y ∈ splice start deleteCount items l) : y ∈ items ∨ y ∈ l := by
  simp only [splice, List.mem_append] at h
  rcases h with (h | h) | h
  · exact Or.inr (List.mem_of_mem_take h)
  · exact Or.inl h
  · exact Or.inr (List.mem_of_mem_drop h)

theorem nextStatus_isStatus (c : Cell) (h : c.isStatus = true) :
    (nextStatus c).isStatus = true := by
  cases c with
  | num n =>
    simp only [Cell.isStatus, Bool.and_eq_true, decide_eq_true_eq] at h
    have hn : n = 0 ∨ n = 1 ∨ n = 2 ∨ n = 3 ∨ n = 4 := by omega
    rcases hn with rfl | rfl | rfl | rfl | rfl <;> decide
  | nan => simp [Cell.isStatus] at h
  | null => simp [Cell.isStatus] at h
  | hole => simp [Cell.isStatus] at h

theorem zeroAssignments_wellShaped (id name : String) (createdAt : Int) :
    Subject.wellShaped ⟨id, name, zeroAssignments, createdAt⟩ = true := rfl

theorem readCell_isStatus (s : Subject) (k : Nat) (hs : s.wellShaped = true) (hk : k ≤ 4) :
    (readCell s.assignments k).isStatus = true := by
  simp only [Subject.wellShaped, Bool.and_eq_true, beq_iff_eq, List.all_eq_true] at hs
  have hlt : k < s.assignments.length := by omega
  have hmem : s.assignments[k] ∈ s.assignments := List.getElem_mem hlt
  simpa [readCell, List.getD_eq_getElem?_getD, List.getElem?_eq_getElem hlt] using hs.2 _ hmem

theorem writeCell_wellShaped (s : Subject) (k : Nat) (v : Cell) (hs : s.wellShaped = true)
    (hk : k ≤ 4) (hv : v.isStatus = true) :
    Subject.wellShaped { s with assignments := writeCell s.assignments k v } = true := by
  simp only [Subject.wellShaped, Bool.and_eq_true, beq_iff_eq, List.all_eq_true] at hs ⊢
  have hlt : k < s.assignments.length := by omega
  simp only [writeCell, hlt, if_true, List.length_set]
  refine ⟨hs.1, ?_⟩
  intro c hc
  rcases List.mem_or_eq_of_mem_set hc with h | h
  · exact hs.2 c h
  · rw [h]; exact hv

theorem expire_shapeInv (now : Int) (st : Store) (h : ShapeInv st) :
    ShapeInv (expire now st) := by
  unfold expire
  cases st.undoTimeout with
  | none => simpa using h
  | some deadline =>
    by_cases hlt : deadline < now
    · simp only [hlt, if_true]
      exact ⟨h.1, by simp [undoTimeoutFires]⟩
    · simpa [hlt] using h

theorem handle_shapeInv (now : Int) (e : Event) (st : Store)
    (hinv : ShapeInv st) (hc : shapeCondition e = true) :
    ShapeInv (handle now e st).store := by
  have hlist := hinv.1
  have hbuf := hinv.2
  cases e with
  | addSubject uuid createdAt name =>
    by_cases hn : trim name = ""
    · simpa [handle, addSubject, hn] using And.intro hlist hbuf
    · refine ⟨?_, ?_⟩
      · intro s hs
        simp only [handle, addSubject, hn, saveData, Store.setSubjects, beq_iff_eq, if_false,
          List.mem_append, List.mem_singleton] at hs
        rcases hs with hs | hs
        · exact hlist s hs
        · rw [hs]; exact zeroAssignments_wellShaped _ _ _
      · simpa [handle, addSubject, hn, saveData, Store.setSubjects] using hbuf
  | deleteSubject id =>
    cases hfi : findIndex (fun s : Subject => s.id == id) st.appState.subjects with
    | none => simpa [handle, deleteSubject, hfi] using And.intro hlist hbuf
    | some index =>
      obtain ⟨item, hitem, _⟩ := findIndex_some_get _ _ _ hfi
      have hitemShape : item.wellShaped = true := hlist item (List.getElem?_mem hitem)
      have hrest : ∀ s ∈ splice index 1 [] st.appState.subjects, s.wellShaped = true := by
        intro s hs
        rcases mem_splice _ _ _ _ _ hs with h | h
        · simp at h
        · exact hlist s h
      by_cases hr : render (splice index 1 [] st.appState.subjects) = true
      · simpa [handle, deleteSubject, hfi, hitem, ShapeInv, saveData, Store.setSubjects,
          showToast, hr] using And.intro hrest hitemShape
      · simpa [handle, deleteSubject, hfi, hitem, ShapeInv, saveData, Store.setSubjects,
          showToast, hr] using And.intro hrest hitemShape
  | undoDelete =>
    cases hu : st.undoStack with
    | none => simpa [handle, undoDelete, hu] using hinv
    | some entry =>
      have hall : ∀ s ∈ splice entry.index 0 [entry.item] st.appState.subjects,
          s.wellShaped = true := by
        intro s hs
        rcases mem_splice _ _ _ _ _ hs with h | h
        · simp only [List.mem_singleton] at h
          rw [h]; exact hbuf entry hu
        · exact hlist s h
      simpa [handle, undoDelete, hu, ShapeInv, saveData, Store.setSubjects] using hall
  | resetSubject id =>
    cases hf : find (fun s : Subject => s.id == id) st.appState.subjects with
    | none => simpa [handle, resetSubject, hf] using And.intro hlist hbuf
    | some sub =>
      refine ⟨?_, ?_⟩
      · intro s hs
        simp only [handle, resetSubject, hf, saveData, Store.setSubjects] at hs
        rcases mem_updateFound _ _ _ _ hs with h | ⟨x, _, h⟩
        · exact hlist s h
        · rw [h]; exact zeroAssignments_wellShaped _ _ _
      · simpa [handle, resetSubject, hf, saveData, Store.setSubjects] using hbuf
  | toggleStatus subjectId assignIndex =>
    have hk : assignIndex ≤ 4 := by simpa [shapeCondition] using hc
    cases hf : find (fun s : Subject => s.id == subjectId) st.appState.subjects with
    | none => simpa [handle, toggleStatus, hf] using And.intro hlist hbuf
    | some sub =>
      have hnext : (nextStatus (readCell sub.assignments assignIndex)).isStatus = true :=
        nextStatus_isStatus _ (readCell_isStatus sub assignIndex (hlist sub (find_mem _ _ _ hf)) hk)
      refine ⟨?_, ?_⟩
      · intro s hs
        simp only [handle, toggleStatus, hf, saveData, Store.setSubjects] at hs
        rcases mem_updateFound _ _ _ _ hs with h | ⟨x, hx, h⟩
        · exact hlist s h
        · rw [h]; exact writeCell_wellShaped x assignIndex _ (hlist x hx) hk hnext
      · simpa [handle, toggleStatus, hf, saveData, Store.setSubjects] using hbuf
  | updateName id newName =>
    cases hf : find (fun s : Subject => s.id == id) st.appState.subjects with
    | none => simpa [handle, updateName, hf] using And.intro hlist hbuf
    | some sub =>
      by_cases hn : trim newName = sub.name
      · simpa [handle, updateName, hf, hn] using And.intro hlist hbuf
      · refine ⟨?_, ?_⟩
        · intro s hs
          simp only [handle, updateName, hf, hn, saveData, Store.setSubjects, bne_iff_ne, ne_eq,
            not_false_eq_true, if_true] at hs
          rcases mem_updateFound _ _ _ _ hs with h | ⟨x, hx, h⟩
          · exact hlist s h
          · rw [h]; exact hlist x hx
        · simpa [handle, updateName, hf, hn, saveData, Store.setSubjects] using hbuf
  | resetAll =>
    simpa [handle, resetAll, ShapeInv, saveData, Store.setSubjects, showToast, render] using hbuf
  | replaceAll parsed =>
    have hnew : ∀ s ∈ parsed.subjects, s.wellShaped = true := by
      simpa [shapeCondition, List.all_eq_true] using hc
    by_cases hr : render parsed.subjects = true
    · simpa [handle, replaceAll, ShapeInv, saveData, showToast, hr] using And.intro hnew hbuf
    · simpa [handle, replaceAll, ShapeInv, saveData, showToast, hr] using And.intro hnew hbuf
  | changeTheme themeName =>
    simpa [handle, changeTheme, ShapeInv, saveData] using And.intro hlist hbuf
  | showToast => simpa [handle, showToast, ShapeInv] using And.intro hlist hbuf

/-- C9: the assignments shape is an invariant of the store.  If every listed
subject and the subject in the undo buffer (if any) has exactly 5 assignment
entries, each in `[0,4]`, then the same holds after `addSubject`,
`deleteSubject`, `undoDelete`, `resetSubject`, `toggleStatus` with an index in
`[0,4]`, `updateName`, `resetAll`, and `replaceAll` with a snapshot of that
shape; it also holds after a change of theme, a toast and a timer expiry. -/
theorem assignments_shape_preserved (now : Int) (e : Event) (st : Store)
    (hinv : ShapeInv st) (hc : shapeCondition e = true) :
    ShapeInv (handle now e st).store ∧ ShapeInv (expire now st) ∧
      ShapeInv (dispatch now e st) :=
  ⟨handle_shapeInv now e st hinv hc, expire_shapeInv now st hinv,
    handle_shapeInv now e _ (expire_shapeInv now st hinv) hc⟩

theorem assignments_shape_preserved_witness :
    ShapeInv (handle 5 (Event.toggleStatus "a" 2) sampleStore).store ∧
      ShapeInv (expire 5 sampleStore) ∧
      ShapeInv (dispatch 5 (Event.toggleStatus "a" 2) sampleStore) :=
  assignments_shape_preserved 5 (Event.toggleStatus "a" 2) sampleStore
    ⟨by decide, fun u h => by simp [sampleStore] at h⟩ (by decide)

/-! ### Persistence of the operations -/

theorem find_eq_none_of_any {α : Type} (p : α → Bool) (l : List α) (h : l.any p = false) :
    find p l = none := by
  rw [find_eq_none_iff]
  intro x hx
  by_contra hp
  have : l.any p = true := List.any_eq_true.mpr ⟨x, hx, by simpa using hp⟩
  rw [h] at this
  cases this

theorem find_isSome_of_any {α : Type} (p : α → Bool) (l : List α) (h : l.any p = true) :
    ∃ x, find p l = some x := by
  cases hf : find p l with
  | some x => exact ⟨x, rfl⟩
  | none =>
    obtain ⟨x, hx, hp⟩ := List.any_eq_true.mp h
    have := (find_eq_none_iff p l).mp hf x hx
    rw [hp] at this
    cases this

theorem findIndex_eq_none_of_any {α : Type} (p : α → Bool) (l : List α)
    (h : l.any p = false) : findIndex p l = none := by
  rw [findIndex_eq_none_iff, ← find_eq_none_iff]
  exact find_eq_none_of_any p l h

theorem findIndex_isSome_of_any {α : Type} (p : α → Bool) (l : List α)
    (h : l.any p = true) : ∃ i x, findIndex p l = some i ∧ l[i]? = some x := by
  cases hf : findIndex p l with
  | some i =>
    obtain ⟨x, hx, _⟩ := findIndex_some_get p l i hf
    exact ⟨i, x, rfl, hx⟩
  | none =>
    obtain ⟨x, hx, hp⟩ := List.any_eq_true.mp h
    have := (findIndex_eq_none_iff p l).mp hf x hx
    rw [hp] at this
    cases this

/-- C10, as amended: every store operation that gets past its guard persists:
when it returns, the snapshot stored under the storage key is the serialisation
of the state in memory (same version, theme, subjects and `lastUpdated`).  An
operation stopped by its guard (blank name, unknown id, empty undo buffer,
unchanged name) writes nothing and leaves state in memory, undo buffer and
stored snapshot as they were. -/
theorem operations_persist (now : Int) (e : Event) (st : Store) :
    if guardPasses st e = true then Persisted (handle now e st).store
    else (handle now e st).store.appState = st.appState ∧
      (handle now e st).store.undoStack = st.undoStack ∧
      (handle now e st).store.storage = st.storage := by
  cases e with
  | addSubject uuid createdAt name =>
    by_cases hn : trim name = ""
    · simp [guardPasses, handle, addSubject, hn]
    · simp [guardPasses, handle, addSubject, hn, Persisted, saveData]
  | deleteSubject id =>
    cases hany : st.appState.subjects.any (fun s => s.id == id) with
    | false =>
      simp [guardPasses, hany, handle, deleteSubject, findIndex_eq_none_of_any _ _ hany]
    | true =>
      obtain ⟨index, item, hfi, hitem⟩ := findIndex_isSome_of_any _ _ hany
      by_cases hr : render (splice index 1 [] st.appState.subjects) = true
      · simp [guardPasses, hany, handle, deleteSubject, hfi, hitem, Persisted, saveData,
          Store.setSubjects, showToast, hr]
      · simp [guardPasses, hany, handle, deleteSubject, hfi, hitem, Persisted, saveData,
          Store.setSubjects, showToast, hr]
  | undoDelete =>
    cases hu : st.undoStack with
    | none => simp [guardPasses, hu, handle, undoDelete]
    | some entry => simp [guardPasses, hu, handle, undoDelete, Persisted, saveData]
  | resetSubject id =>
    cases hany : st.appState.subjects.any (fun s => s.id == id) with
    | false =>
      simp [guardPasses, hany, handle, resetSubject, find_eq_none_of_any _ _ hany]
    | true =>
      obtain ⟨sub, hf⟩ := find_isSome_of_any _ _ hany
      simp [guardPasses, hany, handle, resetSubject, hf, Persisted, saveData]
  | toggleStatus subjectId assignIndex =>
    cases hany : st.appState.subjects.any (fun s => s.id == subjectId) with
    | false =>
      simp [guardPasses, hany, handle, toggleStatus, find_eq_none_of_any _ _ hany]
    | true =>
      obtain ⟨sub, hf⟩ := find_isSome_of_any _ _ hany
      simp [guardPasses, hany, handle, toggleStatus, hf, Persisted, saveData]
  | updateName id newName =>
    cases hf : find (fun s : Subject => s.id == id) st.appState.subjects with
    | none => simp [guardPasses, hf, handle, updateName]
    | some sub =>
      by_cases hn : trim newName = sub.name
      · simp [guardPasses, hf, handle, updateName, hn]
      · simp [guardPasses, hf, handle, updateName, hn, Persisted, saveData]
  | resetAll => simp [guardPasses, handle, resetAll, Persisted, saveData, showToast, render,
      Store.setSubjects]
  | replaceAll parsed =>
    by_cases hr : render parsed.subjects = true
    · simp [guardPasses, handle, replaceAll, Persisted, saveData, showToast, hr]
    · simp [guardPasses, handle, replaceAll, Persisted, saveData, showToast, hr]
  | changeTheme themeName => simp [guardPasses, handle, changeTheme, Persisted, saveData]
  | showToast => simp [guardPasses, handle, showToast]

/-- C10 as stated fails: on a first launch nothing is stored; `addSubject` with
a blank name returns without saving, so after the call the storage key is
still empty and does not hold the serialisation of the state in memory. -/
theorem blank_addSubject_does_not_persist :
    (handle 5 (Event.addSubject "u" 5 "   ") (initialStore none)).store.storage = none ∧
    ¬ Persisted (handle 5 (Event.addSubject "u" 5 "   ") (initialStore none)).store := by
  have h : (handle 5 (Event.addSubject "u" 5 "   ") (initialStore none)).store.storage
      = none := rfl
  refine ⟨h, ?_⟩
  intro hp
  unfold Persisted at hp
  rw [h] at hp
  cases hp

end AssignmentTracker
